import Mathlib

/-
Verification of the compost reconciliation engine and detector chain.

This file gives a shallow embedding of the Go sources:
  * `internal/comment/handler.go` — the `CommentHandler` reconciliation engine
    (`LatestMatchingComment`, `UpdateComment`, `NewComment`,
    `HideAndNewComment`, `DeleteAndNewComment` and their helpers);
  * `internal/detect/autodetect.go`, `github_actions.go`, `gitlab_ci.go` —
    the detector chain and the two concrete detectors;
  * the CLI glue in `cmd` (`getCommentRunE`).

Go interfaces become records of functions, platform API calls become an
explicit state-passing oracle, and every engine operation additionally
returns the list of platform calls it performed so that call-counting
properties can be stated.  Fallible Go code returns `Except`.
-/

namespace Compost

/-- Platform errors.  Go errors are opaque; the engine only distinguishes the
`NotImplemented` error that `CallHideComment` may raise (handler.go line 52)
from any other error. -/
inductive Err where
  | notImplemented
  | other (msg : String)
deriving DecidableEq, Repr

/-- The `Comment` interface of handler.go (lines 17-30): body text, a stable
reference, the recency ordering `Less`, and the hidden/minimized flag.  A Go
interface value of a platform-specific comment type is modelled as a value of
an arbitrary type `C` together with this record of method implementations. -/
structure CommentOps (C : Type) where
  body : C → String
  ref : C → String
  less : C → C → Bool
  isHidden : C → Bool

/-- The `PlatformHandler` interface of handler.go (lines 35-54).  Each call
takes the platform state and returns its result together with the successor
state (Go methods perform network effects; here the effect is explicit state
passing over an arbitrary state type `S`). -/
structure PlatformHandler (C S : Type) where
  callFindMatchingComments : S → String → Except Err (List C) × S
  callCreateComment : S → String → Except Err C × S
  callUpdateComment : S → C → String → Except Err Unit × S
  callDeleteComment : S → C → Except Err Unit × S
  callHideComment : S → C → Except Err Unit × S

/-- One platform API call performed by the engine, recorded for counting. -/
inductive Call (C : Type) where
  | findMatching (tag : String)
  | create (body : String)
  | update (c : C) (body : String)
  | delete (c : C)
  | hide (c : C)
deriving DecidableEq

def Call.isCreate {C : Type} : Call C → Bool
  | Call.create _ => true
  | _ => false

def Call.isUpdate {C : Type} : Call C → Bool
  | Call.update _ _ => true
  | _ => false

def Call.isDelete {C : Type} : Call C → Bool
  | Call.delete _ => true
  | _ => false

def Call.isHide {C : Type} : Call C → Bool
  | Call.hide _ => true
  | _ => false

/-- A mutating call: create or update (the calls C1/C2 count). -/
def Call.isMutation {C : Type} : Call C → Bool
  | Call.create _ => true
  | Call.update _ _ => true
  | _ => false

def countCreate {C : Type} (t : List (Call C)) : Nat := (t.filter Call.isCreate).length

def countUpdate {C : Type} (t : List (Call C)) : Nat := (t.filter Call.isUpdate).length

def countDelete {C : Type} (t : List (Call C)) : Nat := (t.filter Call.isDelete).length

def countHide {C : Type} (t : List (Call C)) : Nat := (t.filter Call.isHide).length

def countMutation {C : Type} (t : List (Call C)) : Nat := (t.filter Call.isMutation).length

/-- Modelled from the spec: the tag-marker rendering (`addMarkdownTag`) lives
in a platform file that is not under `src/`; only its caller in handler.go is.
The spec (§4.1) requires a deterministic invisible marker embedding the tag,
and handler.go line 37 documents that the tag "has been embedded at the
beginning of the comment", so the marker is an invisible markdown comment
line holding the tag, placed at the beginning of the body. -/
def markerOf (tag : String) : String := "[//]: <> (" ++ tag ++ ")\n"

/-- Modelled from the spec: `render(body, tag)` — deterministic, prepends the
invisible marker (see `markerOf`). -/
def addMarkdownTag (body tag : String) : String := markerOf tag ++ body

/-- The relation Go's `sort.Slice` sorts by when given `less`: element `a` may
come before `b` exactly when `b` is not strictly before `a`. -/
def sortLe {C : Type} (less : C → C → Bool) (a b : C) : Prop := less b a = false

instance {C : Type} {less : C → C → Bool} : DecidableRel (sortLe less) := fun a b => by
  unfold sortLe; infer_instance

/-- handler.go line 146: `sort.Slice(matchingComments, ...)`.  `sort.Slice`
guarantees only that the result is a permutation sorted by `less`; we model it
with insertion sort, which satisfies the same contract. -/
def sortComments {C : Type} (less : C → C → Bool) (cs : List C) : List C :=
  List.insertionSort (sortLe less) cs

/-- handler.go lines 122-137: `matchingComments` — one
`CallFindMatchingComments` call. -/
def matchingComments {C S : Type} (h : PlatformHandler C S) (tag : String) (s : S) :
    Except Err (List C) × S × List (Call C) :=
  let p := h.callFindMatchingComments s tag
  (p.1, p.2, [Call.findMatching tag])

/-- handler.go lines 140-155: `LatestMatchingComment` — find, sort with `Less`,
return the first comment, or the nil comment (`none`) with no error if the
set is empty. -/
def LatestMatchingComment {C S : Type} (ops : CommentOps C) (h : PlatformHandler C S)
    (tag : String) (s : S) : Except Err (Option C) × S × List (Call C) :=
  match matchingComments h tag s with
  | (Except.error e, s₂, t) => (Except.error e, s₂, t)
  | (Except.ok cs, s₂, t) => (Except.ok (sortComments ops.less cs).head?, s₂, t)

/-- handler.go lines 158-190: `UpdateComment`. -/
def UpdateComment {C S : Type} (ops : CommentOps C) (h : PlatformHandler C S)
    (tag body : String) (s : S) : Except Err Unit × S × List (Call C) :=
  let bodyWithTag := addMarkdownTag body tag
  match LatestMatchingComment ops h tag s with
  | (Except.error e, s₂, t) => (Except.error e, s₂, t)
  | (Except.ok (some latest), s₂, t) =>
    if ops.body latest = bodyWithTag then
      (Except.ok (), s₂, t)
    else
      let p := h.callUpdateComment s₂ latest bodyWithTag
      (p.1, p.2, t ++ [Call.update latest bodyWithTag])
  | (Except.ok none, s₂, t) =>
    let p := h.callCreateComment s₂ bodyWithTag
    (Except.map (fun _ => ()) p.1, p.2, t ++ [Call.create bodyWithTag])

/-- handler.go lines 193-206: `NewComment` — posts the body as-is (no tag
wrapping), one `CallCreateComment`. -/
def NewComment {C S : Type} (h : PlatformHandler C S) (body : String) (s : S) :
    Except Err Unit × S × List (Call C) :=
  let p := h.callCreateComment s body
  (Except.map (fun _ => ()) p.1, p.2, [Call.create body])

/-- The hide loop of handler.go lines 247-253: hide each comment in order,
aborting on the first error. -/
def hideCommentsLoop {C S : Type} (h : PlatformHandler C S) (cs : List C) (s : S) :
    Except Err Unit × S × List (Call C) :=
  match cs with
  | [] => (Except.ok (), s, [])
  | c :: rest =>
    let p := h.callHideComment s c
    match p.1 with
    | Except.error e => (Except.error e, p.2, [Call.hide c])
    | Except.ok _ =>
      let q := hideCommentsLoop h rest p.2
      (q.1, q.2.1, Call.hide c :: q.2.2)

/-- handler.go lines 224-256: `hideComments` — keep only the comments that are
not hidden, then hide those. -/
def hideComments {C S : Type} (ops : CommentOps C) (h : PlatformHandler C S)
    (cs : List C) (s : S) : Except Err Unit × S × List (Call C) :=
  hideCommentsLoop h (cs.filter fun c => !ops.isHidden c) s

/-- handler.go lines 209-221: `HideAndNewComment`. -/
def HideAndNewComment {C S : Type} (ops : CommentOps C) (h : PlatformHandler C S)
    (tag body : String) (s : S) : Except Err Unit × S × List (Call C) :=
  match matchingComments h tag s with
  | (Except.error e, s₂, t) => (Except.error e, s₂, t)
  | (Except.ok cs, s₂, t) =>
    match hideComments ops h cs s₂ with
    | (Except.error e, s₃, t₂) => (Except.error e, s₃, t ++ t₂)
    | (Except.ok _, s₃, t₂) =>
      let q := NewComment h body s₃
      (q.1, q.2.1, t ++ t₂ ++ q.2.2)

/-- The delete loop of handler.go lines 281-287: delete each comment in order,
aborting on the first error. -/
def deleteCommentsLoop {C S : Type} (h : PlatformHandler C S) (cs : List C) (s : S) :
    Except Err Unit × S × List (Call C) :=
  match cs with
  | [] => (Except.ok (), s, [])
  | c :: rest =>
    let p := h.callDeleteComment s c
    match p.1 with
    | Except.error e => (Except.error e, p.2, [Call.delete c])
    | Except.ok _ =>
      let q := deleteCommentsLoop h rest p.2
      (q.1, q.2.1, Call.delete c :: q.2.2)

/-- handler.go lines 274-290: `deleteComments` — delete every given comment,
with no filtering on the hidden flag. -/
def deleteComments {C S : Type} (h : PlatformHandler C S) (cs : List C) (s : S) :
    Except Err Unit × S × List (Call C) :=
  deleteCommentsLoop h cs s

/-- handler.go lines 259-271: `DeleteAndNewComment`. -/
def DeleteAndNewComment {C S : Type} (ops : CommentOps C) (h : PlatformHandler C S)
    (tag body : String) (s : S) : Except Err Unit × S × List (Call C) :=
  match matchingComments h tag s with
  | (Except.error e, s₂, t) => (Except.error e, s₂, t)
  | (Except.ok cs, s₂, t) =>
    match deleteComments h cs s₂ with
    | (Except.error e, s₃, t₂) => (Except.error e, s₃, t ++ t₂)
    | (Except.ok _, s₃, t₂) =>
      let q := NewComment h body s₃
      (q.1, q.2.1, t ++ t₂ ++ q.2.2)

/-- Failure of the CLI `latest` path: either an error surfaced by the handler,
or the Go runtime panic from calling a method on a nil interface value. -/
inductive RunErr where
  | handlerErr (e : Err)
  | nilDereference
deriving DecidableEq

/-- The tail of `getCommentRunE` (cmd, lines 156-165): after the handler
returns, the code runs `comment.Body()` unconditionally and prints the body
when non-empty.  When `LatestMatchingComment` returned the nil comment
(`none`), the Go method call `comment.Body()` on the nil interface value
panics; the panic is modelled as `RunErr.nilDereference`. -/
def getCommentOutput {C : Type} (ops : CommentOps C) (res : Except Err (Option C)) :
    Except RunErr (Option String) :=
  match res with
  | Except.error e => Except.error (RunErr.handlerErr e)
  | Except.ok none => Except.error RunErr.nilDereference
  | Except.ok (some c) =>
    Except.ok (if ops.body c = "" then none else some (ops.body c))

end Compost

namespace Compost

/-! ### Concrete model platform

A reference platform used for the two-invocation idempotence claim and for
concrete counterexamples.  Its semantics follows the spec's capability
contract (§4.1, §6): find returns exactly the comments carrying the tag
marker, create appends a fresh most-recent comment, update replaces a body in
place, delete removes, hide sets the hidden flag. -/

structure MComment where
  id : Nat
  body : String
  hidden : Bool
  createdAt : Nat
deriving DecidableEq, Repr

abbrev MState := List MComment

/-- Modelled from the spec: the platform-side tag matcher is not under `src/`.
Per §4.1 and the handler.go line 37 comment, a comment matches the tag when
its body carries the marker at the beginning. -/
def hasMarker (tag body : String) : Bool := (markerOf tag).data.isPrefixOf body.data

def freshId (s : MState) : Nat := (s.map MComment.id).foldr Nat.max 0 + 1

def maxCreatedAt (s : MState) : Nat := (s.map MComment.createdAt).foldr Nat.max 0

def mFind (s : MState) (tag : String) : Except Err (List MComment) × MState :=
  (Except.ok (s.filter fun c => hasMarker tag c.body), s)

def mCreate (s : MState) (body : String) : Except Err MComment × MState :=
  let c : MComment := ⟨freshId s, body, false, maxCreatedAt s + 1⟩
  (Except.ok c, s ++ [c])

def mUpdate (s : MState) (c : MComment) (body : String) : Except Err Unit × MState :=
  (Except.ok (), s.map fun x => if x.id = c.id then { x with body := body } else x)

def mDelete (s : MState) (c : MComment) : Except Err Unit × MState :=
  (Except.ok (), s.filter fun x => x.id != c.id)

def mHide (s : MState) (c : MComment) : Except Err Unit × MState :=
  (Except.ok (), s.map fun x => if x.id = c.id then { x with hidden := true } else x)

def mHandler : PlatformHandler MComment MState :=
  ⟨mFind, mCreate, mUpdate, mDelete, mHide⟩

/-- The model platform's `Comment` methods.  `Less` is descending creation
time, the default recency ordering the spec names (§9). -/
def mOps : CommentOps MComment where
  body := MComment.body
  ref := fun c => toString c.id
  less := fun a b => decide (b.createdAt < a.createdAt)
  isHidden := MComment.hidden

/-- Well-formed platform state: distinct comment ids and distinct creation
times. -/
def WfState (s : MState) : Prop :=
  (s.map MComment.id).Nodup ∧ (s.map MComment.createdAt).Nodup

end Compost

namespace Compost

/-! ### Detector chain (internal/detect) -/

/-- autodetect.go lines 11-17: `DetectOptions`. -/
structure DetectOptions where
  platform : String
  targetType : String
deriving DecidableEq, Repr

/-- The platform-specific `Extra` payload (autodetect.go line 27, the
`GitHubExtra`/`GitLabExtra` values built by the detectors). -/
inductive Extra where
  | empty
  | github (apiURL token : String)
  | gitlab (serverURL token : String)
deriving DecidableEq, Repr

/-- autodetect.go lines 22-28: `DetectResult`. -/
structure DetectResult where
  platform : String
  project : String
  targetType : String
  targetRef : String
  extra : Extra
deriving DecidableEq, Repr

/-- Outcome of a `Detect` call: success, the distinguished soft `*DetectError`
(autodetect.go lines 32-39), or any other (hard) error. -/
inductive DetectOutcome where
  | ok (r : DetectResult)
  | softErr (msg : String)
  | hardErr (msg : String)
deriving DecidableEq, Repr

def DetectOutcome.isHard : DetectOutcome → Bool
  | DetectOutcome.hardErr _ => true
  | _ => false

def DetectOutcome.isSoft : DetectOutcome → Bool
  | DetectOutcome.softErr _ => true
  | _ => false

/-- A detector (autodetect.go lines 42-45): a display name and the `Detect`
probe, abstracted over whatever environment it reads. -/
structure DetectorModel where
  displayName : String
  detect : DetectOptions → DetectOutcome

/-- autodetect.go lines 49-52: a registry item maps a detector to the
platforms it supports. -/
structure DetectorRegItem where
  supportedPlatforms : List String
  detector : DetectorModel

/-- autodetect.go lines 99-106: `contains`. -/
def containsString (a : List String) (s : String) : Bool :=
  match a with
  | [] => false
  | e :: rest => if e = s then true else containsString rest s

/-- autodetect.go lines 71-96: `DetectEnvironment`.  Returns the outcome and
the display names of the detectors whose `Detect` was invoked, in order.
The registry is a parameter (in Go it is the package-level list populated by
the `init` functions). -/
def DetectEnvironment (registry : List DetectorRegItem) (opts : DetectOptions) :
    DetectOutcome × List String :=
  match registry with
  | [] => (DetectOutcome.softErr "Could not to detect environment", [])
  | item :: rest =>
    if opts.platform ≠ "" && !containsString item.supportedPlatforms opts.platform then
      DetectEnvironment rest opts
    else
      match item.detector.detect opts with
      | DetectOutcome.softErr _ =>
        let q := DetectEnvironment rest opts
        (q.1, item.detector.displayName :: q.2)
      | DetectOutcome.hardErr m => (DetectOutcome.hardErr m, [item.detector.displayName])
      | DetectOutcome.ok r => (DetectOutcome.ok r, [item.detector.displayName])

/-- The candidates `DetectEnvironment` does not skip: every registry item
whose supported platforms admit the (possibly empty) platform filter. -/
def candidates (registry : List DetectorRegItem) (opts : DetectOptions) :
    List DetectorRegItem :=
  registry.filter fun item =>
    !(opts.platform ≠ "" && !containsString item.supportedPlatforms opts.platform)

/-- autodetect.go lines 131-140 (github_actions.go helper file):
`checkEnvVarExists`.  Go's `os.Getenv` returns `""` for an unset variable, so
an environment variable is modelled as a plain string with `""` meaning
unset. -/
def checkEnvVarExists (name val : String) : Except String String :=
  if val = "" then Except.error (name ++ " environment variable is not set")
  else Except.ok val

/-- autodetect.go lines 146-157: `checkEnvVarValue`. -/
def checkEnvVarValue (name val expected : String) : Except String Unit :=
  match checkEnvVarExists name val with
  | Except.error e => Except.error e
  | Except.ok v =>
    if v ≠ expected then
      Except.error (name ++ " environment variable is set to " ++ v ++ ", expected " ++ expected)
    else Except.ok ()

/-- The JSON event payload fields github_actions.go lines 47-54 unmarshal:
`pull_request.number` and `pull_request.head.sha`.  Missing JSON fields
unmarshal to Go zero values (`0`, `""`). -/
structure GHEvent where
  prNumber : Int
  headSHA : String
deriving DecidableEq, Repr

/-- The environment the GitHub Actions detector reads.  `eventFile` is the
combined result of `os.ReadFile` + `json.Unmarshal` on `GITHUB_EVENT_PATH`;
it is consulted only when the path variable is non-empty. -/
structure GHEnv where
  githubActions : String
  githubToken : String
  githubRepository : String
  githubApiUrl : String
  githubEventPath : String
  githubSha : String
  eventFile : Except String GHEvent

/-- github_actions.go lines 27-102: `GitHubActionsDetector.Detect`.  Every
error the Go code returns is wrapped in `*DetectError`, hence `softErr`.
`strconv.Itoa` is `toString` on `Int`.  The condition of the second target
block keeps Go's `&&`/`||` precedence:
`(targetRef == "" && opts.TargetType == "") || opts.TargetType == "commit"`. -/
def githubDetect (env : GHEnv) (opts : DetectOptions) : DetectOutcome :=
  match checkEnvVarValue "GITHUB_ACTIONS" env.githubActions "true" with
  | Except.error e => DetectOutcome.softErr e
  | Except.ok _ =>
  match checkEnvVarExists "GITHUB_TOKEN" env.githubToken with
  | Except.error e => DetectOutcome.softErr e
  | Except.ok token =>
  match checkEnvVarExists "GITHUB_REPOSITORY" env.githubRepository with
  | Except.error e => DetectOutcome.softErr e
  | Except.ok project =>
  let apiURL := env.githubApiUrl
  let eventRes : Except String GHEvent :=
    if env.githubEventPath ≠ "" then env.eventFile else Except.ok ⟨0, ""⟩
  match eventRes with
  | Except.error e => DetectOutcome.softErr e
  | Except.ok event =>
  let st₁ : String × String :=
    if opts.targetType = "" || opts.targetType = "pull-request" then
      let r := toString event.prNumber
      if r ≠ "" then ("pull-request", r) else ("", r)
    else ("", "")
  let st₂ : Except String (String × String) :=
    if (st₁.2 = "" && opts.targetType = "") || opts.targetType = "commit" then
      let tr := event.headSHA
      if tr = "" then
        match checkEnvVarExists "GITHUB_SHA" env.githubSha with
        | Except.error e => Except.error e
        | Except.ok v => Except.ok ("commit", v)
      else Except.ok ("commit", tr)
    else Except.ok st₁
  match st₂ with
  | Except.error e => DetectOutcome.softErr e
  | Except.ok (tt, tr) =>
    if tr = "" then DetectOutcome.softErr "Could not determine target ref"
    else DetectOutcome.ok ⟨"github", project, tt, tr, Extra.github apiURL token⟩

/-- The environment the GitLab CI detector reads. -/
structure GLEnv where
  gitlabCI : String
  gitlabToken : String
  ciProjectPath : String
  ciServerUrl : String
  ciMergeRequestIID : String
  ciCommitSha : String
deriving DecidableEq, Repr

/-- gitlab_ci.go lines 25-75: `GitLabCIDetector.Detect`.  As in the GitHub
detector, every returned error is a soft `*DetectError`. -/
def gitlabDetect (env : GLEnv) (opts : DetectOptions) : DetectOutcome :=
  match checkEnvVarValue "GITLAB_CI" env.gitlabCI "true" with
  | Except.error e => DetectOutcome.softErr e
  | Except.ok _ =>
  match checkEnvVarExists "GITLAB_TOKEN" env.gitlabToken with
  | Except.error e => DetectOutcome.softErr e
  | Except.ok token =>
  match checkEnvVarExists "CI_PROJECT_PATH" env.ciProjectPath with
  | Except.error e => DetectOutcome.softErr e
  | Except.ok project =>
  let st₁ : String × String :=
    if opts.targetType = "" || opts.targetType = "pull-request" then
      let r := env.ciMergeRequestIID
      if r ≠ "" then ("pull-request", r) else ("", r)
    else ("", "")
  let st₂ : Except String (String × String) :=
    if (st₁.2 = "" && opts.targetType = "") || opts.targetType = "commit" then
      match checkEnvVarExists "CI_COMMIT_SHA" env.ciCommitSha with
      | Except.error e => Except.error e
      | Except.ok v => Except.ok ("commit", v)
    else Except.ok st₁
  match st₂ with
  | Except.error e => DetectOutcome.softErr e
  | Except.ok (tt, tr) =>
    if tr = "" then DetectOutcome.softErr "Could not determine target ref"
    else DetectOutcome.ok ⟨"gitlab", project, tt, tr, Extra.gitlab env.ciServerUrl token⟩

end Compost

namespace Compost

/-! ### Sorting lemmas -/

theorem sortComments_perm {C : Type} (less : C → C → Bool) (cs : List C) :
    (sortComments less cs).Perm cs :=
  List.perm_insertionSort _ cs

theorem sortComments_eq_nil_iff {C : Type} {less : C → C → Bool} {cs : List C} :
    sortComments less cs = [] ↔ cs = [] := by
  constructor
  · intro h
    have hp := sortComments_perm less cs
    rw [h] at hp
    exact hp.nil_eq.symm
  · intro h
    subst h
    rfl

theorem sortComments_sorted {C : Type} {less : C → C → Bool}
    (hA : ∀ a b, less a b = false ∨ less b a = false)
    (hT : ∀ a b c, less a b = false → less b c = false → less a c = false)
    (cs : List C) : List.Sorted (sortLe less) (sortComments less cs) :=
  @List.sorted_insertionSort C (sortLe less) _ ⟨fun a b => hA b a⟩
    ⟨fun _ b c hab hbc => hT c b _ hbc hab⟩ cs

theorem head_sortComments_min {C : Type} {less : C → C → Bool}
    (hA : ∀ a b, less a b = false ∨ less b a = false)
    (hT : ∀ a b c, less a b = false → less b c = false → less a c = false)
    {cs rest : List C} {m : C}
    (hs : sortComments less cs = m :: rest) :
    m ∈ cs ∧ ∀ x ∈ cs, less x m = false := by
  have hperm := sortComments_perm less cs
  rw [hs] at hperm
  refine ⟨hperm.mem_iff.mp (List.mem_cons_self m rest), ?_⟩
  intro x hx
  have hx₂ : x ∈ m :: rest := hperm.mem_iff.mpr hx
  rcases List.mem_cons.mp hx₂ with rfl | hx₃
  · rcases hA x x with h | h <;> exact h
  · have hsorted := sortComments_sorted hA hT cs
    rw [hs] at hsorted
    exact (List.pairwise_cons.mp hsorted).1 x hx₃

theorem head?_sortComments_eq {C : Type} {less : C → C → Bool}
    (hA : ∀ a b, less a b = false ∨ less b a = false)
    (hT : ∀ a b c, less a b = false → less b c = false → less a c = false)
    {cs : List C} {m : C}
    (hconn : ∀ a, a ∈ cs → ∀ b, b ∈ cs → a ≠ b → less a b = true ∨ less b a = true)
    (hm : m ∈ cs) (hmin : ∀ x ∈ cs, less x m = false) :
    (sortComments less cs).head? = some m := by
  cases hs : sortComments less cs with
  | nil =>
    rw [sortComments_eq_nil_iff.mp hs] at hm
    exact absurd hm (List.not_mem_nil m)
  | cons m₂ rest =>
    obtain ⟨hm₂, hmin₂⟩ := head_sortComments_min hA hT hs
    by_cases he : m₂ = m
    · subst he
      rfl
    · rcases hconn m₂ hm₂ m hm he with hlt | hlt
      · rw [hmin m₂ hm₂] at hlt
        exact absurd hlt (by simp)
      · rw [hmin₂ m hm] at hlt
        exact absurd hlt (by simp)

end Compost

namespace Compost

/-! ### Facts about the model platform ordering -/

theorem mLess_total (a b : MComment) : mOps.less a b = false ∨ mOps.less b a = false := by
  simp only [mOps, decide_eq_false_iff_not]
  omega

theorem mLess_negTrans (a b c : MComment) :
    mOps.less a b = false → mOps.less b c = false → mOps.less a c = false := by
  simp only [mOps, decide_eq_false_iff_not]
  omega

theorem hasMarker_addMarkdownTag (body tag : String) :
    hasMarker tag (addMarkdownTag body tag) = true := by
  unfold hasMarker addMarkdownTag
  rw [String.data_append]
  exact List.isPrefixOf_iff_prefix.mpr (List.prefix_append _ _)

/-- Unfolding `LatestMatchingComment` under a successful find. -/
theorem latestMatchingComment_eq {C S : Type} (ops : CommentOps C) (h : PlatformHandler C S)
    {tag : String} {s s₂ : S} {cs : List C}
    (hfind : h.callFindMatchingComments s tag = (Except.ok cs, s₂)) :
    LatestMatchingComment ops h tag s
      = (Except.ok (sortComments ops.less cs).head?, s₂, [Call.findMatching tag]) := by
  simp [LatestMatchingComment, matchingComments, hfind]

end Compost

namespace Compost

/-- Claim C3: for every comment set returned by `CallFindMatchingComments`,
`LatestMatchingComment` returns the "no comment" result (`none`, not an
error) iff the set is empty; otherwise it returns an element that the `Less`
ordering places first (a member no other member sorts before), and — when
`Less` behaves as a strict weak ordering that is connected on the set — the
same element is returned for any permutation of the set's input order. -/
theorem latestMatchingComment_ordering {C S : Type} (ops : CommentOps C)
    (h hp : PlatformHandler C S) (tag : String) (s sp s₂ sp₂ : S) (cs csp : List C)
    (hfind : h.callFindMatchingComments s tag = (Except.ok cs, s₂))
    (hfindp : hp.callFindMatchingComments sp tag = (Except.ok csp, sp₂))
    (hperm : csp.Perm cs)
    (hA : ∀ a b, ops.less a b = false ∨ ops.less b a = false)
    (hT : ∀ a b c, ops.less a b = false → ops.less b c = false → ops.less a c = false)
    (hconn : ∀ a, a ∈ cs → ∀ b, b ∈ cs → a ≠ b → ops.less a b = true ∨ ops.less b a = true) :
    ((LatestMatchingComment ops h tag s).1 = Except.ok none ↔ cs = []) ∧
    (cs ≠ [] → ∃ m, (LatestMatchingComment ops h tag s).1 = Except.ok (some m) ∧ m ∈ cs ∧
      (∀ x ∈ cs, ops.less x m = false) ∧
      (LatestMatchingComment ops hp tag sp).1 = Except.ok (some m)) := by
  rw [latestMatchingComment_eq ops h hfind, latestMatchingComment_eq ops hp hfindp]
  constructor
  · simp [List.head?_eq_none_iff, sortComments_eq_nil_iff]
  · intro hne
    cases hs : sortComments ops.less cs with
    | nil => exact absurd (sortComments_eq_nil_iff.mp hs) hne
    | cons m rest =>
      obtain ⟨hm, hmin⟩ := head_sortComments_min hA hT hs
      refine ⟨m, rfl, hm, hmin, ?_⟩
      have hmem : m ∈ csp := hperm.mem_iff.mpr hm
      have hminp : ∀ x ∈ csp, ops.less x m = false := fun x hx =>
        hmin x (hperm.mem_iff.mp hx)
      have hconnp : ∀ a, a ∈ csp → ∀ b, b ∈ csp → a ≠ b →
          ops.less a b = true ∨ ops.less b a = true := fun a ha b hb =>
        hconn a (hperm.mem_iff.mp ha) b (hperm.mem_iff.mp hb)
      rw [head?_sortComments_eq hA hT hconnp hmem hminp]

/-- Witness for C3: a two-element matching set presented in two input orders
yields the same (most recent) comment, and `none` is not returned. -/
theorem latestMatchingComment_ordering_witness :
    (((LatestMatchingComment mOps mHandler "t"
        [⟨1, addMarkdownTag "a" "t", false, 1⟩, ⟨2, addMarkdownTag "b" "t", false, 2⟩]).1
        = Except.ok none
      ↔ ([⟨1, addMarkdownTag "a" "t", false, 1⟩, ⟨2, addMarkdownTag "b" "t", false, 2⟩]
          : List MComment) = []) ∧
    (([⟨1, addMarkdownTag "a" "t", false, 1⟩, ⟨2, addMarkdownTag "b" "t", false, 2⟩]
        : List MComment) ≠ [] →
      ∃ m, (LatestMatchingComment mOps mHandler "t"
        [⟨1, addMarkdownTag "a" "t", false, 1⟩, ⟨2, addMarkdownTag "b" "t", false, 2⟩]).1
          = Except.ok (some m) ∧
        m ∈ ([⟨1, addMarkdownTag "a" "t", false, 1⟩, ⟨2, addMarkdownTag "b" "t", false, 2⟩]
          : List MComment) ∧
        (∀ x ∈ ([⟨1, addMarkdownTag "a" "t", false, 1⟩, ⟨2, addMarkdownTag "b" "t", false, 2⟩]
          : List MComment), mOps.less x m = false) ∧
        (LatestMatchingComment mOps mHandler "t"
          [⟨2, addMarkdownTag "b" "t", false, 2⟩, ⟨1, addMarkdownTag "a" "t", false, 1⟩]).1
          = Except.ok (some m))) :=
  latestMatchingComment_ordering mOps mHandler mHandler "t"
    [⟨1, addMarkdownTag "a" "t", false, 1⟩, ⟨2, addMarkdownTag "b" "t", false, 2⟩]
    [⟨2, addMarkdownTag "b" "t", false, 2⟩, ⟨1, addMarkdownTag "a" "t", false, 1⟩]
    _ _ _ _ rfl rfl (by decide) mLess_total mLess_negTrans (by decide)

/-- Claim C10: when the matching set is empty, `LatestMatchingComment` returns
the nil comment with no error, and the CLI get-comment path
(`getCommentRunE`, used by every `latest` subcommand) still calls `Body()` on
it, so the run dereferences a nil `Comment` instead of totally handling the
no-comment case. -/
theorem getComment_nil_dereference {C S : Type} (ops : CommentOps C)
    (h : PlatformHandler C S) (tag : String) (s s₂ : S)
    (hfind : h.callFindMatchingComments s tag = (Except.ok ([] : List C), s₂)) :
    (LatestMatchingComment ops h tag s).1 = Except.ok none ∧
    getCommentOutput ops (LatestMatchingComment ops h tag s).1
      = Except.error RunErr.nilDereference := by
  rw [latestMatchingComment_eq ops h hfind]
  exact ⟨rfl, rfl⟩

/-- Witness for C10: the model platform with no comments at all. -/
theorem getComment_nil_dereference_witness :
    (LatestMatchingComment mOps mHandler "t" ([] : MState)).1 = Except.ok none ∧
    getCommentOutput mOps (LatestMatchingComment mOps mHandler "t" ([] : MState)).1
      = Except.error RunErr.nilDereference :=
  getComment_nil_dereference mOps mHandler "t" [] [] rfl

end Compost

namespace Compost

/-- Claim C2: under a successful find: on a non-empty matching set whose latest
element's body differs from `render(body, tag)`, `UpdateComment` issues
exactly one `CallUpdateComment`, targeting the latest matching comment, and
no `CallCreateComment`; on an empty matching set it issues exactly one
`CallCreateComment`; a mutating call never targets a matching comment other
than the latest one, and a create only ever happens on an empty set. -/
theorem updateComment_single_call {C S : Type} (ops : CommentOps C)
    (h : PlatformHandler C S) (tag body : String) (s s₂ : S) (cs : List C)
    (hfind : h.callFindMatchingComments s tag = (Except.ok cs, s₂)) :
    (cs = [] →
      (UpdateComment ops h tag body s).2.2
        = [Call.findMatching tag, Call.create (addMarkdownTag body tag)] ∧
      countCreate (UpdateComment ops h tag body s).2.2 = 1 ∧
      countUpdate (UpdateComment ops h tag body s).2.2 = 0) ∧
    (∀ m, (sortComments ops.less cs).head? = some m →
      ops.body m ≠ addMarkdownTag body tag →
      (UpdateComment ops h tag body s).2.2
        = [Call.findMatching tag, Call.update m (addMarkdownTag body tag)] ∧
      countUpdate (UpdateComment ops h tag body s).2.2 = 1 ∧
      countCreate (UpdateComment ops h tag body s).2.2 = 0 ∧ m ∈ cs) ∧
    (∀ m c b₂, (sortComments ops.less cs).head? = some m →
      Call.update c b₂ ∈ (UpdateComment ops h tag body s).2.2 →
      c = m ∧ b₂ = addMarkdownTag body tag) ∧
    (∀ b₂, Call.create b₂ ∈ (UpdateComment ops h tag body s).2.2 → cs = []) := by
  have hL := latestMatchingComment_eq ops h hfind
  have hmem : ∀ m, (sortComments ops.less cs).head? = some m → m ∈ cs := by
    intro m hm
    have hsm : m ∈ sortComments ops.less cs := by
      cases hsl : sortComments ops.less cs with
      | nil => rw [hsl] at hm; cases hm
      | cons a rest =>
        rw [hsl] at hm
        simp at hm
        subst hm
        exact List.mem_cons_self _ _
    exact (sortComments_perm ops.less cs).mem_iff.mp hsm
  cases hs : (sortComments ops.less cs).head? with
  | none =>
    have hnil : cs = [] := by
      rw [List.head?_eq_none_iff, sortComments_eq_nil_iff] at hs
      exact hs
    have htr : (UpdateComment ops h tag body s).2.2
        = [Call.findMatching tag, Call.create (addMarkdownTag body tag)] := by
      simp [UpdateComment, hL, hs]
    refine ⟨fun _ => ⟨htr, by rw [htr]; rfl, by rw [htr]; rfl⟩, ?_, ?_, fun _ _ => hnil⟩
    · intro m hm
      cases hm
    · intro m c b₂ hm
      cases hm
  | some m₀ =>
    have hne : cs ≠ [] := by
      intro hnil
      rw [hnil] at hs
      cases hs
    by_cases hb : ops.body m₀ = addMarkdownTag body tag
    · have htr : (UpdateComment ops h tag body s).2.2 = [Call.findMatching tag] := by
        simp [UpdateComment, hL, hs, hb]
      refine ⟨fun hnil => absurd hnil hne, ?_, ?_, ?_⟩
      · intro m hm hb₂
        cases hm
        exact absurd hb hb₂
      · intro m c b₂ _ hc
        rw [htr] at hc
        simp at hc
      · intro b₂ hc
        rw [htr] at hc
        simp at hc
    · have htr : (UpdateComment ops h tag body s).2.2
          = [Call.findMatching tag, Call.update m₀ (addMarkdownTag body tag)] := by
        simp [UpdateComment, hL, hs, hb]
      refine ⟨fun hnil => absurd hnil hne, ?_, ?_, ?_⟩
      · intro m hm _
        cases hm
        exact ⟨htr, by rw [htr]; rfl, by rw [htr]; rfl, hmem m₀ hs⟩
      · intro m c b₂ hm hc
        cases hm
        rw [htr] at hc
        rcases List.mem_cons.mp hc with hc | hc
        · cases hc
        · rcases List.mem_singleton.mp hc with hc
          exact ⟨(Call.update.injEq _ _ _ _).mp hc |>.1, (Call.update.injEq _ _ _ _).mp hc |>.2⟩
      · intro b₂ hc
        rw [htr] at hc
        simp at hc

/-- Witness for C2: a single stale matching comment is updated in place. -/
theorem updateComment_single_call_witness :
    (([⟨1, addMarkdownTag "old" "t", false, 1⟩] : List MComment) = [] →
      (UpdateComment mOps mHandler "t" "new" [⟨1, addMarkdownTag "old" "t", false, 1⟩]).2.2
        = [Call.findMatching "t", Call.create (addMarkdownTag "new" "t")] ∧
      countCreate (UpdateComment mOps mHandler "t" "new"
        [⟨1, addMarkdownTag "old" "t", false, 1⟩]).2.2 = 1 ∧
      countUpdate (UpdateComment mOps mHandler "t" "new"
        [⟨1, addMarkdownTag "old" "t", false, 1⟩]).2.2 = 0) ∧
    (∀ m, (sortComments mOps.less [⟨1, addMarkdownTag "old" "t", false, 1⟩]).head? = some m →
      mOps.body m ≠ addMarkdownTag "new" "t" →
      (UpdateComment mOps mHandler "t" "new" [⟨1, addMarkdownTag "old" "t", false, 1⟩]).2.2
        = [Call.findMatching "t", Call.update m (addMarkdownTag "new" "t")] ∧
      countUpdate (UpdateComment mOps mHandler "t" "new"
        [⟨1, addMarkdownTag "old" "t", false, 1⟩]).2.2 = 1 ∧
      countCreate (UpdateComment mOps mHandler "t" "new"
        [⟨1, addMarkdownTag "old" "t", false, 1⟩]).2.2 = 0 ∧
      m ∈ ([⟨1, addMarkdownTag "old" "t", false, 1⟩] : List MComment)) ∧
    (∀ m c b₂, (sortComments mOps.less [⟨1, addMarkdownTag "old" "t", false, 1⟩]).head? = some m →
      Call.update c b₂ ∈ (UpdateComment mOps mHandler "t" "new"
        [⟨1, addMarkdownTag "old" "t", false, 1⟩]).2.2 →
      c = m ∧ b₂ = addMarkdownTag "new" "t") ∧
    (∀ b₂, Call.create b₂ ∈ (UpdateComment mOps mHandler "t" "new"
        [⟨1, addMarkdownTag "old" "t", false, 1⟩]).2.2 →
      ([⟨1, addMarkdownTag "old" "t", false, 1⟩] : List MComment) = []) :=
  updateComment_single_call mOps mHandler "t" "new"
    [⟨1, addMarkdownTag "old" "t", false, 1⟩] _ [⟨1, addMarkdownTag "old" "t", false, 1⟩] rfl

end Compost

namespace Compost

/-! ### Running the engine against the model platform -/

/-- The comments of a model state that carry the tag marker (what `mFind`
returns). -/
def mMatches (s : MState) (tag : String) : List MComment :=
  s.filter fun c => hasMarker tag c.body

theorem mFind_eq (s : MState) (tag : String) :
    mHandler.callFindMatchingComments s tag = (Except.ok (mMatches s tag), s) := rfl

theorem mCreate_eq (s : MState) (body : String) :
    mHandler.callCreateComment s body
      = (Except.ok ⟨freshId s, body, false, maxCreatedAt s + 1⟩,
         s ++ [⟨freshId s, body, false, maxCreatedAt s + 1⟩]) := rfl

theorem mUpdate_eq (s : MState) (c : MComment) (body : String) :
    mHandler.callUpdateComment s c body
      = (Except.ok (), s.map fun x => if x.id = c.id then { x with body := body } else x) := rfl

/-- Running `UpdateComment` on the model platform, empty matching set: one create. -/
theorem updateComment_model_none {s : MState} {tag : String} (body : String)
    (hs : (sortComments mOps.less (mMatches s tag)).head? = none) :
    UpdateComment mOps mHandler tag body s
      = (Except.ok (),
         s ++ [⟨freshId s, addMarkdownTag body tag, false, maxCreatedAt s + 1⟩],
         [Call.findMatching tag, Call.create (addMarkdownTag body tag)]) := by
  unfold UpdateComment
  rw [latestMatchingComment_eq mOps mHandler (mFind_eq s tag), hs]
  rfl

/-- Running `UpdateComment` on the model platform, latest match already up to date:
no mutation, state unchanged. -/
theorem updateComment_model_fresh {s : MState} {tag : String} {m : MComment} (body : String)
    (hs : (sortComments mOps.less (mMatches s tag)).head? = some m)
    (hb : m.body = addMarkdownTag body tag) :
    UpdateComment mOps mHandler tag body s
      = (Except.ok (), s, [Call.findMatching tag]) := by
  unfold UpdateComment
  rw [latestMatchingComment_eq mOps mHandler (mFind_eq s tag), hs]
  simp only [mOps, hb, if_pos]

/-- Running `UpdateComment` on the model platform, latest match stale: one update in
place. -/
theorem updateComment_model_stale {s : MState} {tag : String} {m : MComment} (body : String)
    (hs : (sortComments mOps.less (mMatches s tag)).head? = some m)
    (hb : m.body ≠ addMarkdownTag body tag) :
    UpdateComment mOps mHandler tag body s
      = (Except.ok (),
         s.map fun x => if x.id = m.id then { x with body := addMarkdownTag body tag } else x,
         [Call.findMatching tag, Call.update m (addMarkdownTag body tag)]) := by
  unfold UpdateComment
  rw [latestMatchingComment_eq mOps mHandler (mFind_eq s tag), hs]
  simp only [mOps, hb, if_neg, mUpdate_eq]
  rfl

/-- Connectivity of the model ordering on a list with distinct creation
times. -/
theorem mConn_of_nodup {l : List MComment}
    (h : (l.map MComment.createdAt).Nodup) :
    ∀ a, a ∈ l → ∀ b, b ∈ l → a ≠ b → mOps.less a b = true ∨ mOps.less b a = true := by
  intro a ha b hb hne
  have hcr : a.createdAt ≠ b.createdAt := fun he =>
    hne (List.inj_on_of_nodup_map h ha hb he)
  simp only [mOps, decide_eq_true_eq]
  omega

theorem mMatches_nodup_createdAt {s : MState} {tag : String}
    (h : (s.map MComment.createdAt).Nodup) :
    ((mMatches s tag).map MComment.createdAt).Nodup :=
  List.Nodup.sublist (List.Sublist.map MComment.createdAt (List.filter_sublist s)) h

/-- After the create step on a state with no match, the new comment is the
sole match. -/
theorem mMatches_after_create {s : MState} {tag body : String}
    (hnil : mMatches s tag = []) :
    mMatches (s ++ [⟨freshId s, addMarkdownTag body tag, false, maxCreatedAt s + 1⟩]) tag
      = [⟨freshId s, addMarkdownTag body tag, false, maxCreatedAt s + 1⟩] := by
  unfold mMatches at hnil ⊢
  rw [List.filter_append, hnil]
  simp [hasMarker_addMarkdownTag]

end Compost

namespace Compost

theorem updCreatedAt (m : MComment) (b : String) (x : MComment) :
    ((if x.id = m.id then { x with body := b } else x) : MComment).createdAt
      = x.createdAt := by
  split <;> rfl

/-- After updating the latest match in place, it is still the comment the
ordering places first (its id and creation time are unchanged, and only the
comment with its id was touched). -/
theorem head_after_update {s : MState} {tag : String} {m : MComment} (body : String)
    (hwf : WfState s)
    (hm : m ∈ mMatches s tag)
    (hmin : ∀ x ∈ mMatches s tag, mOps.less x m = false) :
    (sortComments mOps.less
      (mMatches (s.map fun x =>
        if x.id = m.id then { x with body := addMarkdownTag body tag } else x) tag)).head?
      = some { m with body := addMarkdownTag body tag } := by
  obtain ⟨hms, hmk⟩ := List.mem_filter.mp hm
  have hfm : (fun x => if x.id = m.id then { x with body := addMarkdownTag body tag } else x) m
      = { m with body := addMarkdownTag body tag } := by simp
  have hmem₂ : ({ m with body := addMarkdownTag body tag } : MComment)
      ∈ mMatches (s.map fun x =>
        if x.id = m.id then { x with body := addMarkdownTag body tag } else x) tag := by
    refine List.mem_filter.mpr ⟨?_, hasMarker_addMarkdownTag body tag⟩
    rw [← hfm]
    exact List.mem_map_of_mem _ hms
  have hmin₂ : ∀ x ∈ mMatches (s.map fun x =>
        if x.id = m.id then { x with body := addMarkdownTag body tag } else x) tag,
      mOps.less x ({ m with body := addMarkdownTag body tag } : MComment) = false := by
    intro x hx
    obtain ⟨hxs, hxm⟩ := List.mem_filter.mp hx
    obtain ⟨y, hys, hyx⟩ := List.mem_map.mp hxs
    have hcr : x.createdAt = y.createdAt := by rw [← hyx]; exact updCreatedAt m _ y
    by_cases hyid : y.id = m.id
    · have hym : y = m :=
        List.inj_on_of_nodup_map hwf.1 hys hms hyid
      simp only [mOps, decide_eq_false_iff_not]
      subst hym
      omega
    · have hyeq : x = y := by rw [← hyx]; simp [hyid]
      have hymatch : y ∈ mMatches s tag := by
        refine List.mem_filter.mpr ⟨hys, ?_⟩
        rw [← hyeq]
        exact hxm
      have := hmin y hymatch
      simp only [mOps, decide_eq_false_iff_not] at this ⊢
      omega
  have hnodup₂ : ((mMatches (s.map fun x =>
        if x.id = m.id then { x with body := addMarkdownTag body tag } else x) tag).map
        MComment.createdAt).Nodup := by
    apply mMatches_nodup_createdAt
    have : (s.map fun x =>
        if x.id = m.id then { x with body := addMarkdownTag body tag } else x).map
        MComment.createdAt = s.map MComment.createdAt := by
      rw [List.map_map]
      exact List.map_congr_left fun x _ => updCreatedAt m _ x
    rw [this]
    exact hwf.2
  exact head?_sortComments_eq mLess_total mLess_negTrans (mConn_of_nodup hnodup₂)
    hmem₂ hmin₂

end Compost

namespace Compost

theorem countMutation_find_create {C : Type} (tag b : String) :
    countMutation ([Call.findMatching tag, Call.create b] : List (Call C)) = 1 := rfl

theorem countMutation_find_update {C : Type} (tag b : String) (c : C) :
    countMutation [Call.findMatching tag, Call.update c b] = 1 := rfl

theorem countMutation_find {C : Type} (tag : String) :
    countMutation ([Call.findMatching tag] : List (Call C)) = 0 := rfl

/-- Counterexample to C1 as frozen: on a comment set whose latest matching
comment already stores `render(body, tag)` (the claim's own precondition),
two successive `UpdateComment` invocations with the same body perform zero
create-or-update calls in total, not exactly one. -/
theorem updateComment_twice_zero_mutations :
    (sortComments mOps.less
        (mMatches [⟨1, addMarkdownTag "hello" "t", false, 1⟩] "t")).head?
      = some ⟨1, addMarkdownTag "hello" "t", false, 1⟩ ∧
    countMutation (UpdateComment mOps mHandler "t" "hello"
        [⟨1, addMarkdownTag "hello" "t", false, 1⟩]).2.2 +
      countMutation (UpdateComment mOps mHandler "t" "hello"
        (UpdateComment mOps mHandler "t" "hello"
          [⟨1, addMarkdownTag "hello" "t", false, 1⟩]).2.1).2.2 = 0 :=
  ⟨rfl, rfl⟩

/-- Claim C1 (amended): `UpdateComment` is idempotent: whenever the latest
tag-matching comment's stored body equals `render(body, tag)`, it performs no
create and no update call; consequently, two successive invocations with an
identical body perform at most one create-or-update call in total, and
exactly one when the initial matching set is empty or its latest element is
stale. -/
theorem updateComment_idempotent :
    (∀ (C S : Type) (ops : CommentOps C) (h : PlatformHandler C S)
       (tag body : String) (s s₂ : S) (cs : List C) (m : C),
      h.callFindMatchingComments s tag = (Except.ok cs, s₂) →
      (sortComments ops.less cs).head? = some m →
      ops.body m = addMarkdownTag body tag →
      UpdateComment ops h tag body s = (Except.ok (), s₂, [Call.findMatching tag]) ∧
      countMutation (UpdateComment ops h tag body s).2.2 = 0) ∧
    (∀ (s : MState) (tag body : String),
      WfState s →
      countMutation (UpdateComment mOps mHandler tag body s).2.2 +
        countMutation (UpdateComment mOps mHandler tag body
          (UpdateComment mOps mHandler tag body s).2.1).2.2 ≤ 1 ∧
      ((∀ m, (sortComments mOps.less (mMatches s tag)).head? = some m →
          m.body ≠ addMarkdownTag body tag) →
        countMutation (UpdateComment mOps mHandler tag body s).2.2 +
          countMutation (UpdateComment mOps mHandler tag body
            (UpdateComment mOps mHandler tag body s).2.1).2.2 = 1)) := by
  constructor
  · intro C S ops h tag body s s₂ cs m hfind hs hb
    have htr : UpdateComment ops h tag body s
        = (Except.ok (), s₂, [Call.findMatching tag]) := by
      unfold UpdateComment
      rw [latestMatchingComment_eq ops h hfind, hs]
      simp [hb]
    exact ⟨htr, by rw [htr]; rfl⟩
  · intro s tag body hwf
    cases hs : (sortComments mOps.less (mMatches s tag)).head? with
    | none =>
      have hnil : mMatches s tag = [] := by
        rwa [List.head?_eq_none_iff, sortComments_eq_nil_iff] at hs
      have h1 := updateComment_model_none body hs
      have h2s : (sortComments mOps.less
          (mMatches (s ++ [⟨freshId s, addMarkdownTag body tag, false, maxCreatedAt s + 1⟩])
            tag)).head?
          = some ⟨freshId s, addMarkdownTag body tag, false, maxCreatedAt s + 1⟩ := by
        rw [mMatches_after_create hnil]
        rfl
      have h2 := updateComment_model_fresh body h2s rfl
      have hcount : countMutation (UpdateComment mOps mHandler tag body s).2.2 +
          countMutation (UpdateComment mOps mHandler tag body
            (UpdateComment mOps mHandler tag body s).2.1).2.2 = 1 := by
        rw [h1]
        dsimp only
        rw [h2]
        rfl
      exact ⟨le_of_eq hcount, fun _ => hcount⟩
    | some m =>
      by_cases hb : m.body = addMarkdownTag body tag
      · have h1 := updateComment_model_fresh body hs hb
        have hcount : countMutation (UpdateComment mOps mHandler tag body s).2.2 +
            countMutation (UpdateComment mOps mHandler tag body
              (UpdateComment mOps mHandler tag body s).2.1).2.2 = 0 := by
          rw [h1]
          dsimp only
          rw [h1]
          rfl
        refine ⟨by omega, fun hstale => absurd hb (hstale m rfl)⟩
      · have h1 := updateComment_model_stale body hs hb
        have hcons : ∃ rest, sortComments mOps.less (mMatches s tag)
            = m :: rest := by
          cases hsl : sortComments mOps.less (mMatches s tag) with
          | nil => rw [hsl] at hs; cases hs
          | cons a rest =>
            rw [hsl] at hs
            simp at hs
            subst hs
            exact ⟨rest, rfl⟩
        obtain ⟨rest, hsl⟩ := hcons
        obtain ⟨hm, hmin⟩ := head_sortComments_min mLess_total mLess_negTrans hsl
        have h2s := head_after_update body hwf hm hmin
        have h2 := updateComment_model_fresh body h2s rfl
        have hcount : countMutation (UpdateComment mOps mHandler tag body s).2.2 +
            countMutation (UpdateComment mOps mHandler tag body
              (UpdateComment mOps mHandler tag body s).2.1).2.2 = 1 := by
          rw [h1]
          dsimp only
          rw [h2]
          rfl
        exact ⟨le_of_eq hcount, fun _ => hcount⟩

/-- Witness for C1 (amended): the no-mutation branch on a fresh comment, and
the two-invocation bound starting from a stale single-comment state. -/
theorem updateComment_idempotent_witness :
    (UpdateComment mOps mHandler "t" "hello" [⟨1, addMarkdownTag "hello" "t", false, 1⟩]
      = (Except.ok (), [⟨1, addMarkdownTag "hello" "t", false, 1⟩], [Call.findMatching "t"]) ∧
     countMutation (UpdateComment mOps mHandler "t" "hello"
        [⟨1, addMarkdownTag "hello" "t", false, 1⟩]).2.2 = 0) ∧
    (countMutation (UpdateComment mOps mHandler "t" "new"
        [⟨1, addMarkdownTag "old" "t", false, 1⟩]).2.2 +
      countMutation (UpdateComment mOps mHandler "t" "new"
        (UpdateComment mOps mHandler "t" "new"
          [⟨1, addMarkdownTag "old" "t", false, 1⟩]).2.1).2.2 ≤ 1 ∧
     ((∀ m, (sortComments mOps.less
          (mMatches [⟨1, addMarkdownTag "old" "t", false, 1⟩] "t")).head? = some m →
        m.body ≠ addMarkdownTag "new" "t") →
      countMutation (UpdateComment mOps mHandler "t" "new"
          [⟨1, addMarkdownTag "old" "t", false, 1⟩]).2.2 +
        countMutation (UpdateComment mOps mHandler "t" "new"
          (UpdateComment mOps mHandler "t" "new"
            [⟨1, addMarkdownTag "old" "t", false, 1⟩]).2.1).2.2 = 1)) :=
  ⟨updateComment_idempotent.1 MComment MState mOps mHandler "t" "hello"
      [⟨1, addMarkdownTag "hello" "t", false, 1⟩] [⟨1, addMarkdownTag "hello" "t", false, 1⟩]
      [⟨1, addMarkdownTag "hello" "t", false, 1⟩] ⟨1, addMarkdownTag "hello" "t", false, 1⟩
      rfl rfl rfl,
   updateComment_idempotent.2 [⟨1, addMarkdownTag "old" "t", false, 1⟩] "t" "new"
      (by constructor <;> decide)⟩

end Compost

namespace Compost

/-! ### Hide and delete loops -/

theorem hideCommentsLoop_ok {C S : Type} (h : PlatformHandler C S)
    (hhide : ∀ s c, (h.callHideComment s c).1 = Except.ok ())
    (cs : List C) (s : S) :
    (hideCommentsLoop h cs s).1 = Except.ok () ∧
    (hideCommentsLoop h cs s).2.2 = cs.map Call.hide := by
  induction cs generalizing s with
  | nil => exact ⟨rfl, rfl⟩
  | cons c rest ih =>
    unfold hideCommentsLoop
    dsimp only
    rw [hhide s c]
    dsimp only
    refine ⟨(ih _).1, ?_⟩
    rw [(ih _).2]
    rfl

theorem hideCommentsLoop_err {C S : Type} (h : PlatformHandler C S) (e : Err)
    (hhide : ∀ s c, (h.callHideComment s c).1 = Except.error e)
    (c : C) (rest : List C) (s : S) :
    hideCommentsLoop h (c :: rest) s
      = (Except.error e, (h.callHideComment s c).2, [Call.hide c]) := by
  unfold hideCommentsLoop
  dsimp only
  rw [hhide s c]

theorem deleteCommentsLoop_ok {C S : Type} (h : PlatformHandler C S)
    (hdel : ∀ s c, (h.callDeleteComment s c).1 = Except.ok ())
    (cs : List C) (s : S) :
    (deleteCommentsLoop h cs s).1 = Except.ok () ∧
    (deleteCommentsLoop h cs s).2.2 = cs.map Call.delete := by
  induction cs generalizing s with
  | nil => exact ⟨rfl, rfl⟩
  | cons c rest ih =>
    unfold deleteCommentsLoop
    dsimp only
    rw [hdel s c]
    dsimp only
    refine ⟨(ih _).1, ?_⟩
    rw [(ih _).2]
    rfl

theorem deleteCommentsLoop_trace_delete {C S : Type} (h : PlatformHandler C S)
    (cs : List C) (s : S) :
    ∀ x ∈ (deleteCommentsLoop h cs s).2.2, x.isDelete = true := by
  induction cs generalizing s with
  | nil => intro x hx; cases hx
  | cons c rest ih =>
    intro x hx
    unfold deleteCommentsLoop at hx
    dsimp only at hx
    cases hp : (h.callDeleteComment s c).1 with
    | error e =>
      rw [hp] at hx
      dsimp only at hx
      rcases List.mem_singleton.mp hx with rfl
      rfl
    | ok u =>
      rw [hp] at hx
      dsimp only at hx
      rcases List.mem_cons.mp hx with rfl | hx₂
      · rfl
      · exact ih _ x hx₂

theorem countHide_hides_create {C : Type} (b : String) (l : List C) :
    countHide (l.map Call.hide ++ [Call.create b]) = l.length := by
  induction l with
  | nil => rfl
  | cons c r ih =>
    unfold countHide at ih ⊢
    simp only [List.map_cons, List.cons_append, List.filter_cons]
    simp only [Call.isHide, if_pos, List.length_cons]
    rw [ih]

theorem countCreate_hides_create {C : Type} (b : String) (l : List C) :
    countCreate (l.map Call.hide ++ [Call.create b]) = 1 := by
  induction l with
  | nil => rfl
  | cons c r ih =>
    unfold countCreate at ih ⊢
    simp only [List.map_cons, List.cons_append, List.filter_cons]
    simp only [Call.isHide, Call.isCreate]
    rw [← ih]
    rfl

theorem countDelete_deletes_create {C : Type} (b : String) (l : List C) :
    countDelete (l.map Call.delete ++ [Call.create b]) = l.length := by
  induction l with
  | nil => rfl
  | cons c r ih =>
    unfold countDelete at ih ⊢
    simp only [List.map_cons, List.cons_append, List.filter_cons]
    simp only [Call.isDelete, if_pos, List.length_cons]
    rw [ih]

theorem countCreate_deletes_create {C : Type} (b : String) (l : List C) :
    countCreate (l.map Call.delete ++ [Call.create b]) = 1 := by
  induction l with
  | nil => rfl
  | cons c r ih =>
    unfold countCreate at ih ⊢
    simp only [List.map_cons, List.cons_append, List.filter_cons]
    simp only [Call.isDelete, Call.isCreate]
    rw [← ih]
    rfl

theorem matchingComments_eq {C S : Type} (h : PlatformHandler C S)
    {tag : String} {s s₂ : S} {cs : List C}
    (hfind : h.callFindMatchingComments s tag = (Except.ok cs, s₂)) :
    matchingComments h tag s = (Except.ok cs, s₂, [Call.findMatching tag]) := by
  unfold matchingComments
  rw [hfind]

end Compost

namespace Compost

/-- Claim C7: for a matching set of `N` comments of which `H` are already
hidden, when every hide call succeeds, `HideAndNewComment` issues exactly
`N - H` hide calls — one per visible comment, never one for an already
hidden comment — followed by exactly one create call. -/
theorem hideAndNewComment_calls {C S : Type} (ops : CommentOps C)
    (h : PlatformHandler C S) (tag body : String) (s s₂ : S) (cs : List C)
    (hfind : h.callFindMatchingComments s tag = (Except.ok cs, s₂))
    (hhide : ∀ s₃ c, (h.callHideComment s₃ c).1 = Except.ok ()) :
    (HideAndNewComment ops h tag body s).2.2
      = Call.findMatching tag
          :: ((cs.filter fun c => !ops.isHidden c).map Call.hide ++ [Call.create body]) ∧
    countHide (HideAndNewComment ops h tag body s).2.2
      = cs.length - (cs.filter fun c => ops.isHidden c).length ∧
    countCreate (HideAndNewComment ops h tag body s).2.2 = 1 ∧
    (∀ c, Call.hide c ∈ (HideAndNewComment ops h tag body s).2.2 →
      c ∈ cs ∧ ops.isHidden c = false) := by
  have hHC : hideComments ops h cs s₂
      = (Except.ok (), (hideComments ops h cs s₂).2.1,
         (cs.filter fun c => !ops.isHidden c).map Call.hide) := by
    have h1 := (hideCommentsLoop_ok h hhide (cs.filter fun c => !ops.isHidden c) s₂).1
    have h2 := (hideCommentsLoop_ok h hhide (cs.filter fun c => !ops.isHidden c) s₂).2
    exact Prod.ext h1 (Prod.ext rfl h2)
  have htr : (HideAndNewComment ops h tag body s).2.2
      = Call.findMatching tag
          :: ((cs.filter fun c => !ops.isHidden c).map Call.hide ++ [Call.create body]) := by
    unfold HideAndNewComment
    rw [matchingComments_eq h hfind]
    dsimp only
    rw [hHC]
    rfl
  have hvis : (cs.filter fun c => !ops.isHidden c).length
      = cs.length - (cs.filter fun c => ops.isHidden c).length := by
    have := List.length_eq_length_filter_add (l := cs) (fun c => ops.isHidden c)
    omega
  refine ⟨htr, ?_, ?_, ?_⟩
  · rw [htr]
    show countHide ((cs.filter fun c => !ops.isHidden c).map Call.hide
      ++ [Call.create body]) = _
    rw [countHide_hides_create, hvis]
  · rw [htr]
    show countCreate ((cs.filter fun c => !ops.isHidden c).map Call.hide
      ++ [Call.create body]) = 1
    exact countCreate_hides_create body _
  · intro c hc
    rw [htr] at hc
    rcases List.mem_cons.mp hc with hc | hc
    · cases hc
    · rcases List.mem_append.mp hc with hc | hc
      · obtain ⟨y, hy, hyc⟩ := List.mem_map.mp hc
        cases hyc
        obtain ⟨hys, hyh⟩ := List.mem_filter.mp hy
        exact ⟨hys, by simpa using hyh⟩
      · rcases List.mem_singleton.mp hc with hc
        cases hc

/-- Witness for C7: with 2 of 5 matching comments already hidden, exactly 3
hide calls then exactly 1 create call are issued. -/
theorem hideAndNewComment_calls_witness :
    (HideAndNewComment mOps mHandler "t" "b"
      [⟨1, addMarkdownTag "a" "t", false, 1⟩, ⟨2, addMarkdownTag "b" "t", true, 2⟩,
       ⟨3, addMarkdownTag "c" "t", false, 3⟩, ⟨4, addMarkdownTag "d" "t", true, 4⟩,
       ⟨5, addMarkdownTag "e" "t", false, 5⟩]).2.2
      = Call.findMatching "t"
          :: ((([⟨1, addMarkdownTag "a" "t", false, 1⟩, ⟨2, addMarkdownTag "b" "t", true, 2⟩,
              ⟨3, addMarkdownTag "c" "t", false, 3⟩, ⟨4, addMarkdownTag "d" "t", true, 4⟩,
              ⟨5, addMarkdownTag "e" "t", false, 5⟩] : List MComment).filter
                fun c => !mOps.isHidden c).map Call.hide ++ [Call.create "b"]) ∧
    countHide (HideAndNewComment mOps mHandler "t" "b"
      [⟨1, addMarkdownTag "a" "t", false, 1⟩, ⟨2, addMarkdownTag "b" "t", true, 2⟩,
       ⟨3, addMarkdownTag "c" "t", false, 3⟩, ⟨4, addMarkdownTag "d" "t", true, 4⟩,
       ⟨5, addMarkdownTag "e" "t", false, 5⟩]).2.2
      = ([⟨1, addMarkdownTag "a" "t", false, 1⟩, ⟨2, addMarkdownTag "b" "t", true, 2⟩,
          ⟨3, addMarkdownTag "c" "t", false, 3⟩, ⟨4, addMarkdownTag "d" "t", true, 4⟩,
          ⟨5, addMarkdownTag "e" "t", false, 5⟩] : List MComment).length
        - (([⟨1, addMarkdownTag "a" "t", false, 1⟩, ⟨2, addMarkdownTag "b" "t", true, 2⟩,
            ⟨3, addMarkdownTag "c" "t", false, 3⟩, ⟨4, addMarkdownTag "d" "t", true, 4⟩,
            ⟨5, addMarkdownTag "e" "t", false, 5⟩] : List MComment).filter
              fun c => mOps.isHidden c).length ∧
    countCreate (HideAndNewComment mOps mHandler "t" "b"
      [⟨1, addMarkdownTag "a" "t", false, 1⟩, ⟨2, addMarkdownTag "b" "t", true, 2⟩,
       ⟨3, addMarkdownTag "c" "t", false, 3⟩, ⟨4, addMarkdownTag "d" "t", true, 4⟩,
       ⟨5, addMarkdownTag "e" "t", false, 5⟩]).2.2 = 1 ∧
    (∀ c, Call.hide c ∈ (HideAndNewComment mOps mHandler "t" "b"
      [⟨1, addMarkdownTag "a" "t", false, 1⟩, ⟨2, addMarkdownTag "b" "t", true, 2⟩,
       ⟨3, addMarkdownTag "c" "t", false, 3⟩, ⟨4, addMarkdownTag "d" "t", true, 4⟩,
       ⟨5, addMarkdownTag "e" "t", false, 5⟩]).2.2 →
      c ∈ ([⟨1, addMarkdownTag "a" "t", false, 1⟩, ⟨2, addMarkdownTag "b" "t", true, 2⟩,
          ⟨3, addMarkdownTag "c" "t", false, 3⟩, ⟨4, addMarkdownTag "d" "t", true, 4⟩,
          ⟨5, addMarkdownTag "e" "t", false, 5⟩] : List MComment) ∧
        mOps.isHidden c = false) :=
  hideAndNewComment_calls mOps mHandler "t" "b" _ _
    [⟨1, addMarkdownTag "a" "t", false, 1⟩, ⟨2, addMarkdownTag "b" "t", true, 2⟩,
     ⟨3, addMarkdownTag "c" "t", false, 3⟩, ⟨4, addMarkdownTag "d" "t", true, 4⟩,
     ⟨5, addMarkdownTag "e" "t", false, 5⟩] rfl (fun _ _ => rfl)

end Compost

namespace Compost

/-- Counterexample to C8 as frozen: on a platform whose `CallHideComment`
always signals `NotImplemented`, with a matching set whose only comment is
already hidden, `HideAndNewComment` succeeds and creates a new comment — the
not-implemented condition never surfaces, because no hide call is attempted
for an already-hidden comment. -/
theorem hideAndNew_notImplemented_skipped :
    (HideAndNewComment mOps
        { mHandler with callHideComment := fun s _ => (Except.error Err.notImplemented, s) }
        "t" "b" [⟨1, addMarkdownTag "x" "t", true, 1⟩]).1 = Except.ok () ∧
    countCreate (HideAndNewComment mOps
        { mHandler with callHideComment := fun s _ => (Except.error Err.notImplemented, s) }
        "t" "b" [⟨1, addMarkdownTag "x" "t", true, 1⟩]).2.2 = 1 ∧
    ¬ (HideAndNewComment mOps
        { mHandler with callHideComment := fun s _ => (Except.error Err.notImplemented, s) }
        "t" "b" [⟨1, addMarkdownTag "x" "t", true, 1⟩]).1
        = Except.error Err.notImplemented :=
  ⟨rfl, rfl, fun hcontra => Except.noConfusion hcontra⟩

/-- Claim C8 (amended): when `CallHideComment` signals the distinguished
`NotImplemented` condition, `HideAndNewComment` fails with that condition and
does not create a new comment — for every matching set that contains at least
one visible comment.  When every matching comment is already hidden (or none
matches), no hide call is attempted, so the condition does not surface and a
new comment is created. -/
theorem hideAndNew_notImplemented {C S : Type} (ops : CommentOps C)
    (h : PlatformHandler C S) (tag body : String) (s s₂ : S) (cs : List C)
    (hfind : h.callFindMatchingComments s tag = (Except.ok cs, s₂))
    (hhide : ∀ s₃ c, (h.callHideComment s₃ c).1 = Except.error Err.notImplemented) :
    ((∃ c ∈ cs, ops.isHidden c = false) →
      (HideAndNewComment ops h tag body s).1 = Except.error Err.notImplemented ∧
      countCreate (HideAndNewComment ops h tag body s).2.2 = 0) ∧
    ((∀ c ∈ cs, ops.isHidden c = true) →
      countHide (HideAndNewComment ops h tag body s).2.2 = 0 ∧
      (HideAndNewComment ops h tag body s).2.2
        = [Call.findMatching tag, Call.create body]) := by
  constructor
  · rintro ⟨c, hcs, hcv⟩
    have hcvis : c ∈ cs.filter fun x => !ops.isHidden x :=
      List.mem_filter.mpr ⟨hcs, by simp [hcv]⟩
    cases hv : cs.filter fun x => !ops.isHidden x with
    | nil => rw [hv] at hcvis; cases hcvis
    | cons c₀ rest =>
      have hHC : hideComments ops h cs s₂
          = (Except.error Err.notImplemented, (h.callHideComment s₂ c₀).2,
             [Call.hide c₀]) := by
        unfold hideComments
        rw [hv]
        exact hideCommentsLoop_err h Err.notImplemented hhide c₀ rest s₂
      have hrun : HideAndNewComment ops h tag body s
          = (Except.error Err.notImplemented, (h.callHideComment s₂ c₀).2,
             [Call.findMatching tag, Call.hide c₀]) := by
        unfold HideAndNewComment
        rw [matchingComments_eq h hfind]
        dsimp only
        rw [hHC]
        rfl
      rw [hrun]
      exact ⟨rfl, rfl⟩
  · intro hall
    have hv : (cs.filter fun x => !ops.isHidden x) = [] := by
      rw [List.filter_eq_nil]
      intro a ha
      simp [hall a ha]
    have hHC : hideComments ops h cs s₂ = (Except.ok (), s₂, []) := by
      unfold hideComments
      rw [hv]
      rfl
    have hrun : (HideAndNewComment ops h tag body s).2.2
        = [Call.findMatching tag, Call.create body] := by
      unfold HideAndNewComment
      rw [matchingComments_eq h hfind]
      dsimp only
      rw [hHC]
      rfl
    exact ⟨by rw [hrun]; rfl, hrun⟩

/-- Witness for C8 (amended): one visible matching comment — the
not-implemented error propagates and nothing is created; and an all-hidden
set — no hide call, one create call. -/
theorem hideAndNew_notImplemented_witness :
    ((∃ c ∈ ([⟨1, addMarkdownTag "x" "t", false, 1⟩] : List MComment),
        mOps.isHidden c = false) →
      (HideAndNewComment mOps
        { mHandler with callHideComment := fun s _ => (Except.error Err.notImplemented, s) }
        "t" "b" [⟨1, addMarkdownTag "x" "t", false, 1⟩]).1
        = Except.error Err.notImplemented ∧
      countCreate (HideAndNewComment mOps
        { mHandler with callHideComment := fun s _ => (Except.error Err.notImplemented, s) }
        "t" "b" [⟨1, addMarkdownTag "x" "t", false, 1⟩]).2.2 = 0) ∧
    ((∀ c ∈ ([⟨1, addMarkdownTag "x" "t", false, 1⟩] : List MComment),
        mOps.isHidden c = true) →
      countHide (HideAndNewComment mOps
        { mHandler with callHideComment := fun s _ => (Except.error Err.notImplemented, s) }
        "t" "b" [⟨1, addMarkdownTag "x" "t", false, 1⟩]).2.2 = 0 ∧
      (HideAndNewComment mOps
        { mHandler with callHideComment := fun s _ => (Except.error Err.notImplemented, s) }
        "t" "b" [⟨1, addMarkdownTag "x" "t", false, 1⟩]).2.2
        = [Call.findMatching "t", Call.create "b"]) :=
  hideAndNew_notImplemented mOps
    { mHandler with callHideComment := fun s _ => (Except.error Err.notImplemented, s) }
    "t" "b" _ _ [⟨1, addMarkdownTag "x" "t", false, 1⟩] rfl (fun _ _ => rfl)

end Compost

namespace Compost

/-- Claim C9: for a matching set of `N` comments, `DeleteAndNewComment` issues
exactly `N` delete calls — one per matching comment regardless of its hidden
state — and, when every delete succeeds, exactly one create call afterwards;
if the delete phase fails, the operation surfaces that error and never
reaches the create call. -/
theorem deleteAndNewComment_calls {C S : Type} (ops : CommentOps C)
    (h : PlatformHandler C S) (tag body : String) (s s₂ : S) (cs : List C)
    (hfind : h.callFindMatchingComments s tag = (Except.ok cs, s₂)) :
    ((∀ s₃ c, (h.callDeleteComment s₃ c).1 = Except.ok ()) →
      (DeleteAndNewComment ops h tag body s).2.2
        = Call.findMatching tag :: (cs.map Call.delete ++ [Call.create body]) ∧
      countDelete (DeleteAndNewComment ops h tag body s).2.2 = cs.length ∧
      countCreate (DeleteAndNewComment ops h tag body s).2.2 = 1) ∧
    (∀ e, (deleteComments h cs s₂).1 = Except.error e →
      (DeleteAndNewComment ops h tag body s).1 = Except.error e ∧
      countCreate (DeleteAndNewComment ops h tag body s).2.2 = 0) := by
  constructor
  · intro hdel
    have hDC : deleteComments h cs s₂
        = (Except.ok (), (deleteComments h cs s₂).2.1, cs.map Call.delete) := by
      have h1 := (deleteCommentsLoop_ok h hdel cs s₂).1
      have h2 := (deleteCommentsLoop_ok h hdel cs s₂).2
      exact Prod.ext h1 (Prod.ext rfl h2)
    have htr : (DeleteAndNewComment ops h tag body s).2.2
        = Call.findMatching tag :: (cs.map Call.delete ++ [Call.create body]) := by
      unfold DeleteAndNewComment
      rw [matchingComments_eq h hfind]
      dsimp only
      rw [hDC]
      rfl
    refine ⟨htr, ?_, ?_⟩
    · rw [htr]
      show countDelete (cs.map Call.delete ++ [Call.create body]) = cs.length
      exact countDelete_deletes_create body cs
    · rw [htr]
      show countCreate (cs.map Call.delete ++ [Call.create body]) = 1
      exact countCreate_deletes_create body cs
  · intro e herr
    have hDC : deleteComments h cs s₂
        = (Except.error e, (deleteComments h cs s₂).2.1, (deleteComments h cs s₂).2.2) :=
      Prod.ext herr (Prod.ext rfl rfl)
    have hrun : DeleteAndNewComment ops h tag body s
        = (Except.error e, (deleteComments h cs s₂).2.1,
           Call.findMatching tag :: (deleteComments h cs s₂).2.2) := by
      unfold DeleteAndNewComment
      rw [matchingComments_eq h hfind]
      dsimp only
      rw [hDC]
      rfl
    refine ⟨by rw [hrun], ?_⟩
    rw [hrun]
    show countCreate (Call.findMatching tag :: (deleteComments h cs s₂).2.2) = 0
    have hdel := deleteCommentsLoop_trace_delete h cs s₂
    have hnil : List.filter Call.isCreate (deleteComments h cs s₂).2.2 = [] := by
      rw [List.filter_eq_nil]
      intro a ha
      have hda := hdel a ha
      cases a with
      | findMatching t => exact fun hc => Bool.noConfusion hc
      | create b => exact fun _ => Bool.noConfusion hda
      | update c b => exact fun hc => Bool.noConfusion hc
      | delete c => exact fun hc => Bool.noConfusion hc
      | hide c => exact fun hc => Bool.noConfusion hc
    have hstep : countCreate (Call.findMatching tag :: (deleteComments h cs s₂).2.2)
        = countCreate (deleteComments h cs s₂).2.2 := rfl
    rw [hstep]
    unfold countCreate
    rw [hnil]
    rfl

end Compost

namespace Compost

/-- Witness for C9: two matching comments, one hidden — exactly 2 delete
calls regardless of hidden state, then exactly 1 create call. -/
theorem deleteAndNewComment_calls_witness :
    ((∀ s₃ c, (mHandler.callDeleteComment s₃ c).1 = Except.ok ()) →
      (DeleteAndNewComment mOps mHandler "t" "b"
        [⟨1, addMarkdownTag "a" "t", false, 1⟩, ⟨2, addMarkdownTag "c" "t", true, 2⟩]).2.2
        = Call.findMatching "t"
            :: (([⟨1, addMarkdownTag "a" "t", false, 1⟩, ⟨2, addMarkdownTag "c" "t", true, 2⟩]
                : List MComment).map Call.delete ++ [Call.create "b"]) ∧
      countDelete (DeleteAndNewComment mOps mHandler "t" "b"
        [⟨1, addMarkdownTag "a" "t", false, 1⟩, ⟨2, addMarkdownTag "c" "t", true, 2⟩]).2.2
        = ([⟨1, addMarkdownTag "a" "t", false, 1⟩, ⟨2, addMarkdownTag "c" "t", true, 2⟩]
            : List MComment).length ∧
      countCreate (DeleteAndNewComment mOps mHandler "t" "b"
        [⟨1, addMarkdownTag "a" "t", false, 1⟩, ⟨2, addMarkdownTag "c" "t", true, 2⟩]).2.2 = 1) ∧
    (∀ e, (deleteComments mHandler
        [⟨1, addMarkdownTag "a" "t", false, 1⟩, ⟨2, addMarkdownTag "c" "t", true, 2⟩]
        [⟨1, addMarkdownTag "a" "t", false, 1⟩, ⟨2, addMarkdownTag "c" "t", true, 2⟩]).1
        = Except.error e →
      (DeleteAndNewComment mOps mHandler "t" "b"
        [⟨1, addMarkdownTag "a" "t", false, 1⟩, ⟨2, addMarkdownTag "c" "t", true, 2⟩]).1
        = Except.error e ∧
      countCreate (DeleteAndNewComment mOps mHandler "t" "b"
        [⟨1, addMarkdownTag "a" "t", false, 1⟩, ⟨2, addMarkdownTag "c" "t", true, 2⟩]).2.2 = 0) :=
  deleteAndNewComment_calls mOps mHandler "t" "b" _ _
    [⟨1, addMarkdownTag "a" "t", false, 1⟩, ⟨2, addMarkdownTag "c" "t", true, 2⟩] rfl

end Compost

namespace Compost

/-- Claim C4: `DetectEnvironment` iterates the registered detectors in order
(skipping those excluded by the platform filter): every candidate before the
first non-soft one is invoked and soft-skipped; a hard error is returned
immediately and no later detector is invoked; a success is returned
immediately and no later detector is invoked; and if every candidate is
soft, the distinguished "environment not detected" error is returned after
invoking them all.  The trace component lists exactly the invoked detectors
in order. -/
theorem detectEnvironment_chain (registry : List DetectorRegItem) (opts : DetectOptions) :
    (∀ pre item post, candidates registry opts = pre ++ item :: post →
      (∀ x ∈ pre, (x.detector.detect opts).isSoft = true) →
      ((∀ m, item.detector.detect opts = DetectOutcome.hardErr m →
          DetectEnvironment registry opts
            = (DetectOutcome.hardErr m,
               (pre ++ [item]).map fun x => x.detector.displayName)) ∧
       (∀ r, item.detector.detect opts = DetectOutcome.ok r →
          DetectEnvironment registry opts
            = (DetectOutcome.ok r,
               (pre ++ [item]).map fun x => x.detector.displayName)))) ∧
    ((∀ x ∈ candidates registry opts, (x.detector.detect opts).isSoft = true) →
      DetectEnvironment registry opts
        = (DetectOutcome.softErr "Could not to detect environment",
           (candidates registry opts).map fun x => x.detector.displayName)) := by
  induction registry with
  | nil =>
    constructor
    · intro pre item post hcand
      simp [candidates] at hcand
    · intro _
      rfl
  | cons item₀ rest ih =>
    by_cases hskip :
        (opts.platform ≠ "" && !containsString item₀.supportedPlatforms opts.platform) = true
    · have hpred :
          (!(opts.platform ≠ "" && !containsString item₀.supportedPlatforms opts.platform))
            = false := by rw [hskip]; rfl
      have hcand : candidates (item₀ :: rest) opts = candidates rest opts := by
        unfold candidates
        simp only [List.filter_cons, hpred]
        simp
      have henv : DetectEnvironment (item₀ :: rest) opts = DetectEnvironment rest opts := by
        rw [DetectEnvironment.eq_def]
        dsimp only
        rw [if_pos hskip]
      rw [hcand, henv]
      exact ih
    · have hskipf :
          (opts.platform ≠ "" && !containsString item₀.supportedPlatforms opts.platform)
            = false := Bool.eq_false_iff.mpr hskip
      have hpred :
          (!(opts.platform ≠ "" && !containsString item₀.supportedPlatforms opts.platform))
            = true := by rw [hskipf]; rfl
      have hcand : candidates (item₀ :: rest) opts = item₀ :: candidates rest opts := by
        unfold candidates
        simp only [List.filter_cons, hpred]
        simp
      cases hd : item₀.detector.detect opts with
      | softErr m =>
        have henv : DetectEnvironment (item₀ :: rest) opts
            = ((DetectEnvironment rest opts).1,
               item₀.detector.displayName :: (DetectEnvironment rest opts).2) := by
          rw [DetectEnvironment.eq_def]
          dsimp only
          rw [if_neg hskip, hd]
        rw [hcand, henv]
        constructor
        · intro pre d post hsplit hpresoft
          cases pre with
          | nil =>
            injection hsplit with h1 h2
            subst h1
            constructor
            · intro m' hm'
              rw [hd] at hm'
              cases hm'
            · intro r hr
              rw [hd] at hr
              cases hr
          | cons p₀ pre₂ =>
            injection hsplit with h1 h2
            subst h1
            have hpre₂ : ∀ x ∈ pre₂, (x.detector.detect opts).isSoft = true :=
              fun x hx => hpresoft x (List.mem_cons_of_mem _ hx)
            have hrest := ih.1 pre₂ d post h2 hpre₂
            constructor
            · intro m' hm'
              rw [hrest.1 m' hm']
              rfl
            · intro r hr
              rw [hrest.2 r hr]
              rfl
        · intro hall
          have hrest : ∀ x ∈ candidates rest opts, (x.detector.detect opts).isSoft = true :=
            fun x hx => hall x (List.mem_cons_of_mem _ hx)
          rw [ih.2 hrest]
          rfl
      | hardErr m =>
        have henv : DetectEnvironment (item₀ :: rest) opts
            = (DetectOutcome.hardErr m, [item₀.detector.displayName]) := by
          rw [DetectEnvironment.eq_def]
          dsimp only
          rw [if_neg hskip, hd]
        rw [hcand]
        constructor
        · intro pre d post hsplit hpresoft
          cases pre with
          | nil =>
            injection hsplit with h1 h2
            subst h1
            constructor
            · intro m' hm'
              rw [hd] at hm'
              injection hm' with hmm
              subst hmm
              rw [henv]
              rfl
            · intro r hr
              rw [hd] at hr
              cases hr
          | cons p₀ pre₂ =>
            injection hsplit with h1 h2
            subst h1
            have hsoft₀ := hpresoft item₀ (List.mem_cons_self _ _)
            rw [hd] at hsoft₀
            exact Bool.noConfusion hsoft₀
        · intro hall
          have hsoft₀ := hall item₀ (List.mem_cons_self _ _)
          rw [hd] at hsoft₀
          exact Bool.noConfusion hsoft₀
      | ok r =>
        have henv : DetectEnvironment (item₀ :: rest) opts
            = (DetectOutcome.ok r, [item₀.detector.displayName]) := by
          rw [DetectEnvironment.eq_def]
          dsimp only
          rw [if_neg hskip, hd]
        rw [hcand]
        constructor
        · intro pre d post hsplit hpresoft
          cases pre with
          | nil =>
            injection hsplit with h1 h2
            subst h1
            constructor
            · intro m' hm'
              rw [hd] at hm'
              cases hm'
            · intro r' hr'
              rw [hd] at hr'
              injection hr' with hrr
              subst hrr
              rw [henv]
              rfl
          | cons p₀ pre₂ =>
            injection hsplit with h1 h2
            subst h1
            have hsoft₀ := hpresoft item₀ (List.mem_cons_self _ _)
            rw [hd] at hsoft₀
            exact Bool.noConfusion hsoft₀
        · intro hall
          have hsoft₀ := hall item₀ (List.mem_cons_self _ _)
          rw [hd] at hsoft₀
          exact Bool.noConfusion hsoft₀

/-- Witness for C4: a soft detector followed by a hard-error detector — the
chain surfaces the hard error, having invoked exactly the first two
detectors, and never reaches the third. -/
theorem detectEnvironment_chain_witness :
    DetectEnvironment
      [⟨["github"], ⟨"A", fun _ => DetectOutcome.softErr "na"⟩⟩,
       ⟨["gitlab"], ⟨"B", fun _ => DetectOutcome.hardErr "boom"⟩⟩,
       ⟨["gitlab"], ⟨"C", fun _ => DetectOutcome.ok
          ⟨"gitlab", "p", "commit", "sha", Extra.empty⟩⟩⟩] ⟨"", ""⟩
      = (DetectOutcome.hardErr "boom", ["A", "B"]) :=
  ((detectEnvironment_chain
      [⟨["github"], ⟨"A", fun _ => DetectOutcome.softErr "na"⟩⟩,
       ⟨["gitlab"], ⟨"B", fun _ => DetectOutcome.hardErr "boom"⟩⟩,
       ⟨["gitlab"], ⟨"C", fun _ => DetectOutcome.ok
          ⟨"gitlab", "p", "commit", "sha", Extra.empty⟩⟩⟩] ⟨"", ""⟩).1
    [⟨["github"], ⟨"A", fun _ => DetectOutcome.softErr "na"⟩⟩]
    ⟨["gitlab"], ⟨"B", fun _ => DetectOutcome.hardErr "boom"⟩⟩
    [⟨["gitlab"], ⟨"C", fun _ => DetectOutcome.ok
        ⟨"gitlab", "p", "commit", "sha", Extra.empty⟩⟩⟩] rfl
    (fun x hx => by rcases List.mem_singleton.mp hx with rfl; rfl)).1 "boom" rfl

end Compost

namespace Compost

/-- Claim C5: evaluation of the GitHub Actions detector at the claim's failing
input: all marker/credential/project variables set, no target-type pinned,
no event payload (so no pull-request number), and `GITHUB_SHA` set to
"abc123".  The code returns target-type "pull-request" with target-ref "0" —
`strconv.Itoa(0)` is `"0"`, never empty, so the commit fallback the
documentation promises is unreachable — instead of target-type "commit" with
the commit SHA. -/
theorem githubDetect_no_pr_fallback_bug :
    githubDetect ⟨"true", "tok", "owner/repo", "", "", "abc123", Except.ok ⟨0, ""⟩⟩ ⟨"", ""⟩
      = DetectOutcome.ok ⟨"github", "owner/repo", "pull-request", "0", Extra.github "" "tok"⟩ :=
  rfl

/-- Counterexample to C6 as frozen: with the GitLab marker, credential and
project variables all satisfied but target-ref resolution failing (target
type pinned to pull-request, `CI_MERGE_REQUEST_IID` unset), `Detect` returns
the soft `DetectError`, and the chain goes on to try the next detector
instead of aborting. -/
theorem gitlabDetect_targetRef_soft :
    gitlabDetect ⟨"true", "tok", "grp/proj", "", "", "sha1"⟩ ⟨"", "pull-request"⟩
      = DetectOutcome.softErr "Could not determine target ref" ∧
    DetectEnvironment
      [⟨["gitlab"], ⟨"GitLab CI", gitlabDetect ⟨"true", "tok", "grp/proj", "", "", "sha1"⟩⟩⟩,
       ⟨["gitlab"], ⟨"Next", fun _ => DetectOutcome.ok ⟨"x", "p", "commit", "r", Extra.empty⟩⟩⟩]
      ⟨"", "pull-request"⟩
      = (DetectOutcome.ok ⟨"x", "p", "commit", "r", Extra.empty⟩, ["GitLab CI", "Next"]) :=
  ⟨rfl, rfl⟩

/-- Claim C6 (amended): neither concrete detector ever returns a hard error:
every error, including target-ref resolution failing on all applicable
paths, is the soft `DetectError`, so the chain tries the next detector
rather than aborting. -/
theorem detectors_never_hard :
    (∀ (env : GHEnv) (opts : DetectOptions), (githubDetect env opts).isHard = false) ∧
    (∀ (env : GLEnv) (opts : DetectOptions), (gitlabDetect env opts).isHard = false) ∧
    (∀ (env : GLEnv) (opts : DetectOptions),
      env.gitlabCI = "true" → env.gitlabToken ≠ "" → env.ciProjectPath ≠ "" →
      env.ciMergeRequestIID = "" → opts.targetType = "pull-request" →
      gitlabDetect env opts = DetectOutcome.softErr "Could not determine target ref") ∧
    (∀ (env : GHEnv) (opts : DetectOptions),
      env.githubActions = "true" → env.githubToken ≠ "" → env.githubRepository ≠ "" →
      env.githubEventPath = "" → env.githubSha = "" → opts.targetType = "commit" →
      githubDetect env opts
        = DetectOutcome.softErr "GITHUB_SHA environment variable is not set") := by
  refine ⟨?_, ?_, ?_, ?_⟩
  · intro env opts
    unfold githubDetect
    repeat' (first | split | dsimp only)
    all_goals rfl
  · intro env opts
    unfold gitlabDetect
    repeat' (first | split | dsimp only)
    all_goals rfl
  · intro env opts h1 h2 h3 h4 h5
    simp [gitlabDetect, checkEnvVarValue, checkEnvVarExists, h1, h2, h3, h4, h5]
  · intro env opts h1 h2 h3 h4 h5 h6
    simp [githubDetect, checkEnvVarValue, checkEnvVarExists, h1, h2, h3, h4, h5, h6]

/-- Witness for C6 (amended): concrete environments exercising each
conjunct. -/
theorem detectors_never_hard_witness :
    (githubDetect ⟨"", "", "", "", "", "", Except.ok ⟨0, ""⟩⟩ ⟨"", ""⟩).isHard = false ∧
    (gitlabDetect ⟨"", "", "", "", "", ""⟩ ⟨"", ""⟩).isHard = false ∧
    gitlabDetect ⟨"true", "tok", "grp/proj", "", "", "sha1"⟩ ⟨"", "pull-request"⟩
      = DetectOutcome.softErr "Could not determine target ref" ∧
    githubDetect ⟨"true", "tok", "owner/repo", "", "", "", Except.ok ⟨0, ""⟩⟩ ⟨"", "commit"⟩
      = DetectOutcome.softErr "GITHUB_SHA environment variable is not set" :=
  ⟨detectors_never_hard.1 ⟨"", "", "", "", "", "", Except.ok ⟨0, ""⟩⟩ ⟨"", ""⟩,
   detectors_never_hard.2.1 ⟨"", "", "", "", "", ""⟩ ⟨"", ""⟩,
   detectors_never_hard.2.2.1 ⟨"true", "tok", "grp/proj", "", "", "sha1"⟩ ⟨"", "pull-request"⟩
     rfl (by decide) (by decide) rfl rfl,
   detectors_never_hard.2.2.2 ⟨"true", "tok", "owner/repo", "", "", "", Except.ok ⟨0, ""⟩⟩
     ⟨"", "commit"⟩ rfl (by decide) (by decide) rfl rfl rfl⟩

end Compost
